import Mathlib

/-
Verification development for the "resell" mobile-inventory web application.

The application consists of two scripts:
  * src/script.js          — the inventory store (class MobileInventoryManager)
  * src/service-worker.js  — the offline cache worker

This file gives a shallow embedding of both.  Records and the store state
are plain Lean structures; LocalStorage is a single `Option String` slot;
the JSON values produced by `JSON.stringify` and consumed by `JSON.parse`
are modelled by an executable JSON tree type together with a printer and a
parser, so that the persistence round trip is proved at the level of the
actual serialized string.
-/

set_option maxHeartbeats 1000000

/-! ## JSON values

Model of the JSON data interchanged through LocalStorage.  Numbers are
restricted to integers: the only numbers the application ever serializes
are record ids obtained from `Date.now()`, which are integral. -/

inductive Json where
  | null : Json
  | bool (b : Bool) : Json
  | num (n : Int) : Json
  | str (s : String) : Json
  | arr (elems : List Json) : Json
  | obj (fields : List (String × Json)) : Json

/-! ### Printing (the model of `JSON.stringify`) -/

/-- Decimal digit character: `digitChar n` is the character for `n < 10`. -/
def digitChar (n : Nat) : Char := Char.ofNat (48 + n)

/-- Lower-case hexadecimal digit character, for `n < 16`. -/
def hexDigit (n : Nat) : Char :=
  if n < 10 then Char.ofNat (48 + n) else Char.ofNat (87 + n)

/-- Decimal digits of a natural number, most significant first. -/
def natDigits (n : Nat) : List Char :=
  if n < 10 then [digitChar n]
  else natDigits (n / 10) ++ [digitChar (n % 10)]
termination_by n
decreasing_by exact Nat.div_lt_self (by omega) (by omega)

/-- Decimal representation of an integer. -/
def intChars (i : Int) : List Char :=
  if i < 0 then '-' :: natDigits i.natAbs else natDigits i.toNat

/-- Escape of a single character inside a JSON string literal, following
`JSON.stringify`: quote and backslash get a backslash escape, the five
control characters with short escapes use them, all other control
characters use a `\u00XX` escape, and everything else is emitted as is. -/
def escapeChar (c : Char) : List Char :=
  if c = '"' then ['\\', '"']
  else if c = '\\' then ['\\', '\\']
  else if c = '\n' then ['\\', 'n']
  else if c = '\t' then ['\\', 't']
  else if c = '\r' then ['\\', 'r']
  else if c.toNat = 8 then ['\\', 'b']
  else if c.toNat = 12 then ['\\', 'f']
  else if c.toNat < 32 then
    ['\\', 'u', '0', '0', hexDigit (c.toNat / 16), hexDigit (c.toNat % 16)]
  else [c]

/-- Escape of a whole string body. -/
def escList : List Char → List Char
  | [] => []
  | c :: cs => escapeChar c ++ escList cs

mutual

/-- Characters of the JSON serialization of a value (`JSON.stringify`
with no indentation, as used by `saveInventory`). -/
def printJson : Json → List Char
  | .null => 'n' :: 'u' :: 'l' :: 'l' :: []
  | .bool true => 't' :: 'r' :: 'u' :: 'e' :: []
  | .bool false => 'f' :: 'a' :: 'l' :: 's' :: 'e' :: []
  | .num i => intChars i
  | .str s => '"' :: (escList s.data ++ ['"'])
  | .arr [] => ['[', ']']
  | .arr (j :: l) => '[' :: (printElems j l ++ [']'])
  | .obj [] => ['{', '}']
  | .obj (f :: l) => '{' :: (printFields f l ++ ['}'])
termination_by j => sizeOf j
decreasing_by all_goals (simp_wf <;> omega)

/-- Comma-separated serialization of a nonempty list of array elements. -/
def printElems : Json → List Json → List Char
  | j, [] => printJson j
  | j, j2 :: l => printJson j ++ ',' :: printElems j2 l
termination_by j l => sizeOf j + sizeOf l
decreasing_by all_goals (simp_wf <;> omega)

/-- Serialization of a single object member. -/
def printField : String × Json → List Char
  | (k, v) => '"' :: (escList k.data ++ '"' :: ':' :: printJson v)
termination_by f => sizeOf f
decreasing_by all_goals (simp_wf <;> omega)

/-- Comma-separated serialization of a nonempty list of object members. -/
def printFields : String × Json → List (String × Json) → List Char
  | f, [] => printField f
  | f, f2 :: l => printField f ++ ',' :: printFields f2 l
termination_by f l => sizeOf f + sizeOf l + 1
decreasing_by all_goals (simp_wf <;> omega)

end

/-- The serialized form of a JSON value as a string. -/
def stringifyJson (j : Json) : String := ⟨printJson j⟩

/-! ### Parsing (the model of `JSON.parse`) -/

/-- Value of a hexadecimal digit character. -/
def hexVal (c : Char) : Option Nat :=
  if 48 ≤ c.toNat ∧ c.toNat ≤ 57 then some (c.toNat - 48)
  else if 97 ≤ c.toNat ∧ c.toNat ≤ 102 then some (c.toNat - 87)
  else if 65 ≤ c.toNat ∧ c.toNat ≤ 70 then some (c.toNat - 55)
  else none

/-- Prepend a character to the first component of a parser result. -/
def consFst (c : Char) : Option (List Char × List Char) → Option (List Char × List Char)
  | some p => some (c :: p.1, p.2)
  | none => none

mutual

/-- Parse the body of a JSON string literal after the opening quote,
returning the decoded characters and the input after the closing quote. -/
def parseStrChars : List Char → Option (List Char × List Char)
  | [] => none
  | c :: cs =>
    if c = '"' then some ([], cs)
    else if c = '\\' then parseEsc cs
    else if c.toNat < 32 then none
    else consFst c (parseStrChars cs)
termination_by cs => cs.length
decreasing_by all_goals (simp_wf <;> omega)

/-- Parse the remainder of a string body after a backslash. -/
def parseEsc : List Char → Option (List Char × List Char)
  | [] => none
  | e :: cs2 =>
    if e = '"' then consFst '"' (parseStrChars cs2)
    else if e = '\\' then consFst '\\' (parseStrChars cs2)
    else if e = '/' then consFst '/' (parseStrChars cs2)
    else if e = 'n' then consFst '\n' (parseStrChars cs2)
    else if e = 't' then consFst '\t' (parseStrChars cs2)
    else if e = 'r' then consFst '\r' (parseStrChars cs2)
    else if e = 'b' then consFst (Char.ofNat 8) (parseStrChars cs2)
    else if e = 'f' then consFst (Char.ofNat 12) (parseStrChars cs2)
    else if e = 'u' then parseHex4 cs2
    else none
termination_by cs => cs.length
decreasing_by all_goals (simp_wf <;> omega)

/-- Parse the four hexadecimal digits of a `\uXXXX` escape. -/
def parseHex4 : List Char → Option (List Char × List Char)
  | h1 :: h2 :: h3 :: h4 :: r =>
    match hexVal h1, hexVal h2, hexVal h3, hexVal h4 with
    | some a, some b, some c2, some d =>
      consFst (Char.ofNat (4096 * a + 256 * b + 16 * c2 + d)) (parseStrChars r)
    | _, _, _, _ => none
  | _ => none
termination_by cs => cs.length
decreasing_by all_goals (simp_wf <;> omega)

end

/-- Parse a run of decimal digits, accumulating their value. -/
def parseNatAcc (acc : Nat) : List Char → Nat × List Char
  | [] => (acc, [])
  | c :: rest =>
    if c.isDigit then parseNatAcc (10 * acc + (c.toNat - 48)) rest
    else (acc, c :: rest)

/-- Consume an expected literal suffix of characters. -/
def dropLit : List Char → List Char → Option (List Char)
  | [], cs => some cs
  | _ :: _, [] => none
  | l :: ls, c :: cs => if c = l then dropLit ls cs else none

/-- Turn the leftover of a keyword literal into a parse result. -/
def litResult (j : Json) : Option (List Char) → Option (Json × List Char)
  | some rest => some (j, rest)
  | none => none

/-- Turn a parsed string body into a JSON string result. -/
def strResult : Option (List Char × List Char) → Option (Json × List Char)
  | some (l, rest) => some (.str ⟨l⟩, rest)
  | none => none

/-- Whether the input begins with the given character. -/
def headIs (c : Char) : List Char → Bool
  | c2 :: _ => c2 == c
  | [] => false

/-- The input without its first character. -/
def tail1 : List Char → List Char
  | _ :: t => t
  | [] => []

/-- Parse a negative number after a leading minus sign. -/
def parseNeg (cs : List Char) : Option (Json × List Char) :=
  match cs with
  | d :: _ =>
    if d.isDigit then
      let p := parseNatAcc 0 cs
      some (.num (-(p.1 : Int)), p.2)
    else none
  | [] => none

mutual

/-- Fueled JSON value parser; the fuel bounds the nesting depth explored. -/
def parseVal : Nat → List Char → Option (Json × List Char)
  | 0, _ => none
  | _ + 1, [] => none
  | fuel + 1, c :: cs =>
    if c = 'n' then litResult .null (dropLit ['u', 'l', 'l'] cs)
    else if c = 't' then litResult (.bool true) (dropLit ['r', 'u', 'e'] cs)
    else if c = 'f' then litResult (.bool false) (dropLit ['a', 'l', 's', 'e'] cs)
    else if c = '"' then strResult (parseStrChars cs)
    else if c = '[' then
      if headIs ']' cs then some (.arr [], tail1 cs)
      else
        match parseElems fuel cs with
        | some (l, rest) => some (.arr l, rest)
        | none => none
    else if c = '{' then
      if headIs '}' cs then some (.obj [], tail1 cs)
      else
        match parseFields fuel cs with
        | some (l, rest) => some (.obj l, rest)
        | none => none
    else if c = '-' then parseNeg cs
    else if c.isDigit then
      let p := parseNatAcc 0 (c :: cs)
      some (.num (p.1 : Int), p.2)
    else none

/-- Parse the elements of a nonempty array after the opening bracket. -/
def parseElems : Nat → List Char → Option (List Json × List Char)
  | 0, _ => none
  | fuel + 1, cs =>
    match parseVal fuel cs with
    | none => none
    | some (j, rest) =>
      match rest with
      | [] => none
      | c :: rest2 =>
        if c = ',' then
          match parseElems fuel rest2 with
          | some (l, r) => some (j :: l, r)
          | none => none
        else if c = ']' then some ([j], rest2)
        else none

/-- Parse the members of a nonempty object after the opening brace. -/
def parseFields : Nat → List Char → Option (List (String × Json) × List Char)
  | 0, _ => none
  | fuel + 1, cs =>
    match cs with
    | [] => none
    | c :: cs2 =>
      if c = '"' then
        match parseStrChars cs2 with
        | some (k, rest1) =>
          match rest1 with
          | [] => none
          | c2 :: rest2 =>
            if c2 = ':' then
              match parseVal fuel rest2 with
              | some (v, rest3) =>
                match rest3 with
                | [] => none
                | c3 :: rest4 =>
                  if c3 = ',' then
                    match parseFields fuel rest4 with
                    | some (l, r) => some ((⟨k⟩, v) :: l, r)
                    | none => none
                  else if c3 = '}' then some ([(⟨k⟩, v)], rest4)
                  else none
              | none => none
            else none
        | none => none
      else none

end

/-- Parse a complete JSON document; the whole input must be consumed.
The fuel `s.length + 1` always suffices, since every level of nesting
consumes at least one character. -/
def parseJson (s : String) : Option Json :=
  match parseVal (s.data.length + 1) s.data with
  | some (j, []) => some j
  | _ => none

/-- A list of characters that does not begin with a decimal digit; a number
followed by such a list parses back without absorbing anything further. -/
def digitBoundary : List Char → Bool
  | [] => true
  | c :: _ => !c.isDigit

/-! ## The inventory store (src/script.js)

A mobile record as created by `addMobile` and mutated by `updateMobile`
and `markAsSold`.  The `sold` field is `Option Bool` because a freshly
added record has no `sold` key at all (`none`); `markAsSold` sets it to
`some true`.  The `image` key is always present, holding either a data
URL or `null` (`Option String`). -/

structure Mobile where
  id : Nat
  brand : String
  model : String
  imei : String
  ram : String
  storage : String
  image : Option String
  sold : Option Bool
deriving DecidableEq, Repr

/-- JSON encoding of a record, with the key order produced by the object
literals in `addMobile` and `updateMobile`; the `sold` key is present
only when the field has been set. -/
def encodeMobile (m : Mobile) : Json :=
  Json.obj
    ([("id", Json.num m.id), ("brand", Json.str m.brand),
      ("model", Json.str m.model), ("imei", Json.str m.imei),
      ("ram", Json.str m.ram), ("storage", Json.str m.storage),
      ("image", match m.image with
                | none => Json.null
                | some s => Json.str s)] ++
     (match m.sold with
      | none => []
      | some b => [("sold", Json.bool b)]))

/-- JSON encoding of the whole inventory array. -/
def encodeInventory (inv : List Mobile) : Json :=
  Json.arr (inv.map encodeMobile)

/-- The mutable state of `MobileInventoryManager`: the in-memory record
list, the LocalStorage slot `mobileInventory` (a serialized string, or
`none` when the key is absent), and the edit-mode flags. -/
structure Store where
  inventory : List Mobile
  storage : Option String
  isEditing : Bool
  editingId : Option Nat
deriving DecidableEq, Repr

/-- Model of `saveInventory`: overwrite the storage slot with
`JSON.stringify(this.inventory)`.  (The quota-exceeded catch branch is
not modelled; it leaves the slot unchanged and only shows a banner.) -/
def saveInventory (st : Store) : Store :=
  { st with storage := some (stringifyJson (encodeInventory st.inventory)) }

/-- Model of `loadInventory`: read the slot; an absent or empty value
yields `[]`, a present value is passed through `JSON.parse`, and a parse
failure is caught and degraded to `[]`.  The parsed value is returned
as is — its shape is never validated. -/
def loadInventory (stored : Option String) : Json :=
  match stored with
  | none => Json.arr []
  | some s =>
    if s.data = [] then Json.arr []
    else
      match parseJson s with
      | some j => j
      | none => Json.arr []

/-- Model of `validateIMEI`: the test `/^\d{15}$/.test(imei)` — exactly
fifteen characters, each a decimal digit. -/
def validateIMEI (imei : String) : Bool :=
  imei.length == 15 && imei.data.all (fun c => c.isDigit)

/-- Model of `isDuplicateIMEI`: `this.inventory.some(m => m.imei === imei)`. -/
def isDuplicateIMEI (inv : List Mobile) (imei : String) : Bool :=
  inv.any (fun m => m.imei == imei)

/-- The form data assembled in `handleFormSubmit` before adding or
updating: the five text fields plus the processed image (or `null`). -/
structure MobileData where
  brand : String
  model : String
  imei : String
  ram : String
  storage : String
  image : Option String
deriving DecidableEq, Repr

/-- The record `addMobile` builds: `id = Date.now()` (passed here as
`now`) followed by the spread form data; the object literal has no
`sold` key. -/
def newMobile (now : Nat) (d : MobileData) : Mobile :=
  { id := now, brand := d.brand, model := d.model, imei := d.imei,
    ram := d.ram, storage := d.storage, image := d.image, sold := none }

/-- Model of `addMobile`: push the new record and persist. -/
def addMobile (st : Store) (now : Nat) (d : MobileData) : Store :=
  saveInventory { st with inventory := st.inventory ++ [newMobile now d] }

/-- Model of `deleteMobile`: when the confirmation dialog is accepted,
keep exactly the records whose id differs, and persist. -/
def deleteMobile (st : Store) (confirmed : Bool) (id : Nat) : Store :=
  if confirmed then
    saveInventory { st with inventory := st.inventory.filter (fun m => m.id != id) }
  else st

/-- A field set passed to `updateMobile`.  Each `some` entry is a key
present in the `updatedData` object; `id` is carried so that the claim
about updates that try to change `id` can be stated (the merge in the
source spreads `updatedData` and then writes the original `id` back,
so any `id` entry is overwritten). -/
structure UpdateFields where
  id : Option Nat
  brand : Option String
  model : Option String
  imei : Option String
  ram : Option String
  storage : Option String
  image : Option (Option String)
  sold : Option (Option Bool)
deriving DecidableEq, Repr

/-- The merge `{ ...existing, ...updatedData, id }` of `updateMobile`:
every key present in the field set wins, except `id`, which is restored
to the original. -/
def mergeMobile (m : Mobile) (f : UpdateFields) : Mobile :=
  { id := m.id,
    brand := match f.brand with | none => m.brand | some v => v,
    model := match f.model with | none => m.model | some v => v,
    imei := match f.imei with | none => m.imei | some v => v,
    ram := match f.ram with | none => m.ram | some v => v,
    storage := match f.storage with | none => m.storage | some v => v,
    image := match f.image with | none => m.image | some v => v,
    sold := match f.sold with | none => m.sold | some v => v }

/-- Replace the first record whose id matches, as
`findIndex` followed by an assignment at that index does. -/
def updateFirst (id : Nat) (f : UpdateFields) : List Mobile → List Mobile
  | [] => []
  | m :: rest =>
    if m.id == id then mergeMobile m f :: rest else m :: updateFirst id f rest

/-- Model of `updateMobile`: a no-op when `findIndex` misses (index -1,
nothing is written and nothing persisted); otherwise merge into the
found record and persist. -/
def updateMobile (st : Store) (id : Nat) (f : UpdateFields) : Store :=
  if st.inventory.any (fun m => m.id == id) then
    saveInventory { st with inventory := updateFirst id f st.inventory }
  else st

/-- Set `sold = true` on the first record whose id matches, as the
in-place mutation of the record found by `find` does. -/
def setSoldFirst (id : Nat) : List Mobile → List Mobile
  | [] => []
  | m :: rest =>
    if m.id == id then { m with sold := some true } :: rest
    else m :: setSoldFirst id rest

/-- Model of `markAsSold`: requires the confirmation dialog; when the
record is found, set its `sold` flag and persist, otherwise do nothing. -/
def markAsSold (st : Store) (confirmed : Bool) (id : Nat) : Store :=
  if confirmed then
    if st.inventory.any (fun m => m.id == id) then
      saveInventory { st with inventory := setSoldFirst id st.inventory }
    else st
  else st

/-- Outcome of a form submission, as surfaced to the user. -/
inductive SubmitResult where
  | validationFailure
  | duplicateKeyFailure
  | added
  | updated
deriving DecidableEq, Repr

/-- Model of `resetEditMode` (the DOM button styling is not modelled). -/
def resetEditMode (st : Store) : Store :=
  { st with isEditing := false, editingId := none }

/-- The field set built from the submitted form data in edit mode: all
five text fields and the image are present; there is no `id` and no
`sold` key in `mobileData`. -/
def fieldsOfData (d : MobileData) : UpdateFields :=
  { id := none, brand := some d.brand, model := some d.model,
    imei := some d.imei, ram := some d.ram, storage := some d.storage,
    image := some d.image, sold := none }

/-- Model of `handleFormSubmit`: validate the IMEI, reject duplicates
when not editing, then add (with `Date.now()` passed as `now`) or
update (at `editingId`), and leave edit mode.  Image processing is not
modelled: `d.image` is the already-processed result. -/
def handleFormSubmit (st : Store) (now : Nat) (d : MobileData) :
    Store × SubmitResult :=
  if !validateIMEI d.imei then (st, SubmitResult.validationFailure)
  else if !st.isEditing && isDuplicateIMEI st.inventory d.imei then
    (st, SubmitResult.duplicateKeyFailure)
  else if st.isEditing then
    match st.editingId with
    | some id => (resetEditMode (updateMobile st id (fieldsOfData d)), SubmitResult.updated)
    | none => (resetEditMode st, SubmitResult.updated)
  else (resetEditMode (addMobile st now d), SubmitResult.added)

/-! ### Search (the filter of `displayInventory`) -/

/-- Whether `pat` starts the list `hay` (character-exact). -/
def startsWithChars : List Char → List Char → Bool
  | [], _ => true
  | _ :: _, [] => false
  | p :: ps, c :: cs => p == c && startsWithChars ps cs

/-- Model of `String.prototype.includes`: some suffix of `hay` starts
with `pat`. -/
def hasSubChars : List Char → List Char → Bool
  | pat, [] => pat.isEmpty
  | pat, c :: cs => startsWithChars pat (c :: cs) || hasSubChars pat cs

/-- `strIncludes s pat` models `s.includes(pat)`. -/
def strIncludes (s pat : String) : Bool := hasSubChars pat.data s.data

/-- ASCII lower-casing of a string, the model of `toLowerCase()` on the
character data. -/
def lowerStr (s : String) : String := ⟨s.data.map Char.toLower⟩

/-- The search filter of `displayInventory`: lower-case the input; an
empty term shows the whole inventory, otherwise keep records whose
brand or model (lower-cased) or IMEI contains the term. -/
def displayFilter (inv : List Mobile) (input : String) : List Mobile :=
  let term := lowerStr input
  if term.data = [] then inv
  else
    inv.filter (fun m =>
      strIncludes (lowerStr m.brand) term || strIncludes (lowerStr m.model) term ||
        strIncludes m.imei term)

/-! ## The offline cache worker (src/service-worker.js) -/

/-- The current cache generation tag. -/
def CACHE_NAME : String := "mobile-inventory-v1"

/-- The fixed manifest cached at install. -/
def urlsToCache : List String :=
  ["/", "/index.html", "/script.js", "/manifest.json",
   "https://cdn.tailwindcss.com"]

/-- A response as the fetch handler inspects it: HTTP status, the
response type tag (`"basic"` for same-origin), and an opaque body. -/
structure SWResponse where
  status : Nat
  rtype : String
  body : String
deriving DecidableEq, Repr

/-- A request as the fetch handler inspects it: URL and destination
(`"document"` for a full-document navigation). -/
structure SWRequest where
  url : String
  destination : String
deriving DecidableEq, Repr

/-- The current cache generation: URL-keyed stored responses. -/
abbrev CacheStore := List (String × SWResponse)

/-- Model of `caches.match` restricted to one generation: the first
entry stored under the URL, if any. -/
def cacheMatch (cache : CacheStore) (url : String) : Option SWResponse :=
  match cache.find? (fun e => e.1 == url) with
  | some e => some e.2
  | none => none

/-- Model of `cache.put`: an idempotent same-key overwrite (the new
entry shadows any previous one for that URL). -/
def cachePut (cache : CacheStore) (url : String) (r : SWResponse) : CacheStore :=
  (url, r) :: cache

/-- Model of the fetch handler.  `net` is the network: `none` models a
rejected fetch.  Cache hit: return it.  Miss: fetch; an invalid response
(status not 200 or type not basic) is returned to the caller as is and
not cached; a valid one is cached and returned.  Only a rejected fetch
reaches the catch, which falls back to the cached shell for document
requests and produces no response otherwise. -/
def handleFetch (cache : CacheStore) (net : String → Option SWResponse)
    (req : SWRequest) : Option SWResponse × CacheStore :=
  match cacheMatch cache req.url with
  | some r => (some r, cache)
  | none =>
    match net req.url with
    | none =>
      (if req.destination == "document" then cacheMatch cache "/index.html"
       else none, cache)
    | some resp =>
      if resp.status != 200 || resp.rtype != "basic" then (some resp, cache)
      else (some resp, cachePut cache req.url resp)

/-- Model of the activate handler: every cache generation whose name
differs from `CACHE_NAME` is deleted, so exactly the matching names
survive. -/
def activateCaches (cacheNames : List String) : List String :=
  cacheNames.filter (fun n => n == CACHE_NAME)


/-! ## Derived predicates and concrete fixtures -/

/-- The documented inventory invariant: no two records share an IMEI. -/
abbrev imeiUnique (inv : List Mobile) : Prop :=
  (inv.map (fun m => m.imei)).Nodup

/-- No record sold before an operation is un-sold by it: any record in
the result carrying the id of a sold record is still marked sold. -/
def soldPreserved (before after : List Mobile) : Prop :=
  ∀ m ∈ before, m.sold = some true →
    ∀ m2 ∈ after, m2.id = m.id → m2.sold = some true

/-- A form submission with a valid, fresh IMEI. -/
def demoData : MobileData :=
  { brand := "Samsung", model := "Galaxy A54", imei := "123456789012345",
    ram := "8GB", storage := "128GB", image := none }

/-- A form submission whose IMEI fails validation. -/
def badData : MobileData :=
  { brand := "Samsung", model := "Galaxy A54", imei := "12AB",
    ram := "8GB", storage := "128GB", image := none }

/-- A form submission reusing the IMEI of `mobileB`. -/
def collideData : MobileData :=
  { brand := "Samsung", model := "Galaxy A54", imei := "234567890123456",
    ram := "8GB", storage := "128GB", image := none }

/-- The store as it starts on a fresh profile. -/
def emptyStore : Store :=
  { inventory := [], storage := none, isEditing := false, editingId := none }

/-- A first sample record. -/
def mobileA : Mobile :=
  { id := 1, brand := "Samsung", model := "Galaxy A54",
    imei := "123456789012345", ram := "8GB", storage := "128GB",
    image := none, sold := none }

/-- A second sample record. -/
def mobileB : Mobile :=
  { id := 2, brand := "Apple", model := "iPhone 13",
    imei := "234567890123456", ram := "4GB", storage := "128GB",
    image := none, sold := some true }

/-- A two-record store not in edit mode. -/
def plainStore : Store :=
  { inventory := [mobileA, mobileB], storage := none,
    isEditing := false, editingId := none }

/-- The same records with record 1 being edited. -/
def editStore : Store :=
  { inventory := [mobileA, mobileB], storage := none,
    isEditing := true, editingId := some 1 }

/-- A field set that tries to overwrite the record id. -/
def fieldsWithId : UpdateFields :=
  { id := some 999, brand := some "Other", model := none, imei := none,
    ram := none, storage := none, image := none, sold := none }

/-- The cached application shell document. -/
def shellResp : SWResponse :=
  { status := 200, rtype := "basic", body := "shell" }

/-- An invalid (non-200) network response. -/
def errorResp : SWResponse :=
  { status := 404, rtype := "basic", body := "not found" }

/-- A cache generation holding only the shell document. -/
def shellCache : CacheStore := [("/index.html", shellResp)]

/-! ### Round trip: parsing inverts printing -/


theorem toNat_ofNat_valid {n : Nat} (h : n < 55296) : (Char.ofNat n).toNat = n := by
  unfold Char.ofNat
  rw [dif_pos (Or.inl h : Nat.isValidChar n)]
  rfl

theorem isDigit_iff (c : Char) : c.isDigit = true ↔ (48 ≤ c.toNat ∧ c.toNat ≤ 57) := by
  simp [Char.isDigit, UInt32.le_def, BitVec.le_def, Char.toNat, UInt32.toNat]

theorem digitChar_toNat {n : Nat} (h : n < 10) : (digitChar n).toNat = 48 + n :=
  toNat_ofNat_valid (by omega)

theorem digitChar_isDigit {n : Nat} (h : n < 10) : (digitChar n).isDigit = true := by
  rw [isDigit_iff, digitChar_toNat h]
  omega

theorem digitChar_ne {k : Nat} (hk : k < 10) {c : Char}
    (hc : c.toNat < 48 ∨ 57 < c.toNat) : digitChar k ≠ c := by
  intro h
  have h2 := congrArg Char.toNat h
  rw [digitChar_toNat hk] at h2
  omega

theorem natDigits_head (n : Nat) : ∃ k t, natDigits n = digitChar k :: t ∧ k < 10 := by
  induction n using Nat.strong_induction_on with
  | _ n ih =>
    rw [natDigits]
    by_cases h : n < 10
    · exact ⟨n, [], by rw [if_pos h], h⟩
    · rw [if_neg h]
      obtain ⟨k, t, heq, hk⟩ := ih (n / 10) (Nat.div_lt_self (by omega) (by omega))
      exact ⟨k, t ++ [digitChar (n % 10)], by rw [heq]; rfl, hk⟩

theorem parseNatAcc_stop (acc : Nat) {rest : List Char}
    (h : digitBoundary rest = true) : parseNatAcc acc rest = (acc, rest) := by
  cases rest with
  | nil => rfl
  | cons c t =>
    simp only [digitBoundary, Bool.not_eq_true'] at h
    simp [parseNatAcc, h]

theorem parseNatAcc_digits (n : Nat) : ∀ acc rest,
    parseNatAcc acc (natDigits n ++ rest) =
      parseNatAcc (acc * 10 ^ (natDigits n).length + n) rest := by
  induction n using Nat.strong_induction_on with
  | _ n ih =>
    intro acc rest
    rw [natDigits]
    by_cases h : n < 10
    · rw [if_pos h]
      simp only [List.cons_append, List.nil_append, List.length_cons,
        List.length_nil, pow_one]
      rw [parseNatAcc]
      rw [if_pos (digitChar_isDigit h), digitChar_toNat h]
      congr 1
      omega
    · rw [if_neg h]
      rw [List.append_assoc, List.cons_append, List.nil_append]
      rw [ih (n / 10) (Nat.div_lt_self (by omega) (by omega))]
      rw [parseNatAcc]
      rw [if_pos (digitChar_isDigit (Nat.mod_lt n (by omega))),
        digitChar_toNat (Nat.mod_lt n (by omega))]
      rw [List.length_append, List.length_cons, List.length_nil]
      congr 1
      have hdm : 10 * (n / 10) + n % 10 = n := by omega
      calc 10 * (acc * 10 ^ (natDigits (n / 10)).length + n / 10) + (48 + n % 10 - 48)
          = acc * (10 ^ (natDigits (n / 10)).length * 10) + (10 * (n / 10) + n % 10) := by ring_nf; omega
        _ = acc * 10 ^ ((natDigits (n / 10)).length + 1) + n := by rw [pow_succ, hdm]

theorem hexVal_hexDigit {k : Nat} (h : k < 16) : hexVal (hexDigit k) = some k := by
  unfold hexVal hexDigit
  by_cases hk : k < 10
  · rw [if_pos hk, toNat_ofNat_valid (by omega : 48 + k < 55296)]
    rw [if_pos (by omega)]
    congr 1
    omega
  · rw [if_neg hk, toNat_ofNat_valid (by omega : 87 + k < 55296)]
    rw [if_neg (by omega), if_pos (by omega)]
    congr 1
    omega

theorem escapeChar_parse (c : Char) (tail : List Char) :
    parseStrChars (escapeChar c ++ tail) = consFst c (parseStrChars tail) := by
  unfold escapeChar
  split_ifs with h1 h2 h3 h4 h5 h6 h7 h8
  · subst h1; simp [parseStrChars, parseEsc]
  · subst h2; simp [parseStrChars, parseEsc]
  · subst h3; simp [parseStrChars, parseEsc]
  · subst h4; simp [parseStrChars, parseEsc]
  · subst h5; simp [parseStrChars, parseEsc]
  · -- backspace, escaped as \b
    have hc : c = Char.ofNat 8 := by rw [← h6, Char.ofNat_toNat]
    rw [hc]; simp [parseStrChars, parseEsc]
  · -- form feed, escaped as \f
    have hc : c = Char.ofNat 12 := by rw [← h7, Char.ofNat_toNat]
    rw [hc]; simp [parseStrChars, parseEsc]
  · -- other control characters, escaped as \u00XX
    have hdiv : c.toNat / 16 < 16 := by omega
    have hmod : c.toNat % 16 < 16 := Nat.mod_lt _ (by omega)
    have h0 : hexVal '0' = some 0 := by decide
    simp only [List.cons_append, List.nil_append]
    rw [parseStrChars, if_neg (by decide), if_pos rfl]
    rw [parseEsc]
    rw [if_neg (by decide), if_neg (by decide), if_neg (by decide),
      if_neg (by decide), if_neg (by decide), if_neg (by decide),
      if_neg (by decide), if_neg (by decide), if_pos rfl]
    rw [parseHex4, h0, hexVal_hexDigit hdiv, hexVal_hexDigit hmod]
    have harg : 4096 * 0 + 256 * 0 + 16 * (c.toNat / 16) + c.toNat % 16 = c.toNat := by
      omega
    simp only [harg, Char.ofNat_toNat]
  · -- ordinary character, emitted as itself
    simp only [List.cons_append, List.nil_append]
    rw [parseStrChars, if_neg h1, if_neg h2, if_neg (by omega)]

theorem escList_parse (cs : List Char) (rest : List Char) :
    parseStrChars (escList cs ++ '"' :: rest) = some (cs, rest) := by
  induction cs with
  | nil => simp [escList, parseStrChars]
  | cons c t ih =>
    rw [escList, List.append_assoc, escapeChar_parse, ih]
    rfl

theorem printJson_head (j : Json) :
    ∃ c t, printJson j = c :: t ∧ c ≠ ']' := by
  cases j with
  | null => exact ⟨'n', _, by rw [printJson], by decide⟩
  | bool b =>
    cases b with
    | true => exact ⟨'t', _, by rw [printJson], by decide⟩
    | false => exact ⟨'f', _, by rw [printJson], by decide⟩
  | num i =>
    rw [printJson]
    unfold intChars
    by_cases hi : i < 0
    · rw [if_pos hi]
      exact ⟨'-', _, rfl, by decide⟩
    · rw [if_neg hi]
      obtain ⟨k, t, heq, hk⟩ := natDigits_head i.toNat
      refine ⟨digitChar k, t, heq, digitChar_ne hk ?_⟩
      right
      decide
  | str s => exact ⟨'"', _, by rw [printJson], by decide⟩
  | arr l =>
    cases l with
    | nil => exact ⟨'[', _, by rw [printJson], by decide⟩
    | cons j l => exact ⟨'[', _, by rw [printJson], by decide⟩
  | obj l =>
    cases l with
    | nil => exact ⟨'{', _, by rw [printJson], by decide⟩
    | cons f l => exact ⟨'{', _, by rw [printJson], by decide⟩

theorem printJson_length_pos (j : Json) : 0 < (printJson j).length := by
  obtain ⟨c, t, heq, -⟩ := printJson_head j
  rw [heq]
  simp

theorem printElems_cons (j : Json) (l : List Json) :
    ∃ t, printElems j l = printJson j ++ t := by
  cases l with
  | nil => exact ⟨[], by rw [printElems, List.append_nil]⟩
  | cons j2 l2 => exact ⟨',' :: printElems j2 l2, by rw [printElems]⟩

theorem printFields_cons (f : String × Json) (l : List (String × Json)) :
    ∃ t, printFields f l = printField f ++ t := by
  cases l with
  | nil => exact ⟨[], by rw [printFields, List.append_nil]⟩
  | cons f2 l2 => exact ⟨',' :: printFields f2 l2, by rw [printFields]⟩

theorem parseNat_print (n : Nat) {rest : List Char} (hb : digitBoundary rest = true) :
    parseNatAcc 0 (natDigits n ++ rest) = (n, rest) := by
  rw [parseNatAcc_digits]
  rw [Nat.zero_mul, Nat.zero_add]
  exact parseNatAcc_stop n hb

/-- The joint statement of the round trip for values, array tails and
object tails, proved by induction on the parser fuel. -/
theorem parse_print (fuel : Nat) :
    (∀ j rest, (printJson j).length ≤ fuel → digitBoundary rest = true →
      parseVal fuel (printJson j ++ rest) = some (j, rest)) ∧
    (∀ j l rest, (printElems j l).length < fuel →
      parseElems fuel (printElems j l ++ ']' :: rest) = some (j :: l, rest)) ∧
    (∀ f l rest, (printFields f l).length < fuel →
      parseFields fuel (printFields f l ++ '}' :: rest) = some (f :: l, rest)) := by
  induction fuel with
  | zero =>
    refine ⟨?_, ?_, ?_⟩
    · intro j rest hlen _
      exact absurd hlen (by have := printJson_length_pos j; omega)
    · intro j l rest hlen
      omega
    · intro f l rest hlen
      omega
  | succ fuel ih =>
    obtain ⟨ihA, ihB, ihC⟩ := ih
    refine ⟨?_, ?_, ?_⟩
    · -- values
      intro j rest hlen hb
      cases j with
      | null => simp [printJson, parseVal, dropLit, litResult]
      | bool b => cases b <;> simp [printJson, parseVal, dropLit, litResult]
      | num i =>
        rw [printJson] at hlen ⊢
        by_cases hi : i < 0
        · rw [intChars, if_pos hi]
          obtain ⟨k, t, hk, hk10⟩ := natDigits_head i.natAbs
          have hp : parseNatAcc 0 (digitChar k :: (t ++ rest)) = (i.natAbs, rest) := by
            rw [← List.cons_append, ← hk]
            exact parseNat_print _ hb
          have hni : -(i.natAbs : Int) = i := by omega
          simp only [List.cons_append]
          rw [parseVal]
          rw [if_neg (by decide), if_neg (by decide), if_neg (by decide),
            if_neg (by decide), if_neg (by decide), if_neg (by decide), if_pos rfl]
          rw [hk]
          simp only [List.cons_append]
          rw [parseNeg]
          rw [if_pos (digitChar_isDigit hk10)]
          simp only [hp]
          rw [hni]
        · rw [intChars, if_neg hi]
          obtain ⟨k, t, hk, hk10⟩ := natDigits_head i.toNat
          have hp : parseNatAcc 0 (digitChar k :: (t ++ rest)) = (i.toNat, rest) := by
            rw [← List.cons_append, ← hk]
            exact parseNat_print _ hb
          have hni : (i.toNat : Int) = i := by omega
          rw [hk]
          simp only [List.cons_append]
          rw [parseVal]
          rw [if_neg (digitChar_ne hk10 (Or.inr (by decide))),
            if_neg (digitChar_ne hk10 (Or.inr (by decide))),
            if_neg (digitChar_ne hk10 (Or.inr (by decide))),
            if_neg (digitChar_ne hk10 (Or.inl (by decide))),
            if_neg (digitChar_ne hk10 (Or.inr (by decide))),
            if_neg (digitChar_ne hk10 (Or.inr (by decide))),
            if_neg (digitChar_ne hk10 (Or.inl (by decide))),
            if_pos (digitChar_isDigit hk10)]
          simp only [hp]
          rw [hni]
      | str s =>
        rw [printJson]
        simp only [List.cons_append, List.append_assoc, List.singleton_append, List.nil_append]
        rw [parseVal]
        rw [if_neg (by decide), if_neg (by decide), if_neg (by decide), if_pos rfl]
        rw [escList_parse]
        simp [strResult]
      | arr l =>
        cases l with
        | nil => simp [printJson, parseVal, headIs, tail1]
        | cons a l2 =>
          rw [printJson] at hlen ⊢
          have hlt : (printElems a l2).length < fuel := by
            simp only [List.length_cons, List.length_append, List.length_nil] at hlen
            omega
          have hh : headIs ']' (printElems a l2 ++ ']' :: rest) = false := by
            obtain ⟨c0, t0, hc0, hne0⟩ := printJson_head a
            obtain ⟨t1, ht1⟩ := printElems_cons a l2
            rw [ht1, hc0]
            simp only [List.cons_append, headIs]
            exact beq_eq_false_iff_ne.mpr hne0
          simp only [List.cons_append, List.append_assoc, List.singleton_append, List.nil_append]
          rw [parseVal]
          rw [if_neg (by decide), if_neg (by decide), if_neg (by decide),
            if_neg (by decide), if_pos rfl]
          rw [hh]
          simp only [Bool.false_eq_true, if_false]
          rw [ihB a l2 rest hlt]
      | obj l =>
        cases l with
        | nil => simp [printJson, parseVal, headIs, tail1]
        | cons f l2 =>
          rw [printJson] at hlen ⊢
          have hlt : (printFields f l2).length < fuel := by
            simp only [List.length_cons, List.length_append, List.length_nil] at hlen
            omega
          have hh : headIs '}' (printFields f l2 ++ '}' :: rest) = false := by
            obtain ⟨t1, ht1⟩ := printFields_cons f l2
            obtain ⟨k, v⟩ := f
            rw [ht1, printField]
            simp only [List.cons_append, headIs]
            decide
          simp only [List.cons_append, List.append_assoc, List.singleton_append, List.nil_append]
          rw [parseVal]
          rw [if_neg (by decide), if_neg (by decide), if_neg (by decide),
            if_neg (by decide), if_neg (by decide), if_pos rfl]
          rw [hh]
          simp only [Bool.false_eq_true, if_false]
          rw [ihC f l2 rest hlt]
    · -- array tails
      intro j l rest hlen
      cases l with
      | nil =>
        rw [printElems] at hlen ⊢
        rw [parseElems]
        rw [ihA j (']' :: rest) (by omega) rfl]
        simp
      | cons j2 l2 =>
        rw [printElems] at hlen ⊢
        simp only [List.length_append, List.length_cons] at hlen
        simp only [List.append_assoc, List.cons_append]
        rw [parseElems]
        rw [ihA j (',' :: (printElems j2 l2 ++ ']' :: rest)) (by omega) rfl]
        simp [ihB j2 l2 rest (by omega)]
    · -- object tails
      intro f l rest hlen
      obtain ⟨k, v⟩ := f
      cases l with
      | nil =>
        rw [printFields, printField] at hlen ⊢
        simp only [List.length_cons, List.length_append] at hlen
        simp only [List.cons_append, List.append_assoc]
        rw [parseFields]
        rw [if_pos rfl]
        rw [escList_parse]
        simp [ihA v ('}' :: rest) (by omega) rfl]
      | cons f2 l2 =>
        rw [printFields, printField] at hlen ⊢
        simp only [List.length_cons, List.length_append] at hlen
        simp only [List.cons_append, List.append_assoc]
        rw [parseFields]
        rw [if_pos rfl]
        rw [escList_parse]
        simp [ihA v (',' :: (printFields f2 l2 ++ '}' :: rest)) (by omega) rfl,
          ihC f2 l2 rest (by omega)]

/-- Parsing inverts printing for every JSON value. -/
theorem parseJson_stringify (j : Json) : parseJson (stringifyJson j) = some j := by
  unfold parseJson stringifyJson
  have h := (parse_print ((printJson j).length + 1)).1 j [] (by omega) rfl
  rw [List.append_nil] at h
  simp only [h]

/-! ## Claim theorems -/

/-- C4. For every store state, `saveInventory` (persist) followed by
`loadInventory` (load after a simulated restart), with the storage slot
untouched in between, reconstructs exactly the persisted inventory
sequence: the loaded JSON value is the encoding of the saved records. -/
theorem persistence_roundtrip (st : Store) :
    loadInventory (saveInventory st).storage = encodeInventory st.inventory := by
  have hne : (stringifyJson (encodeInventory st.inventory)).data ≠ [] := by
    obtain ⟨c, t, heq, -⟩ := printJson_head (encodeInventory st.inventory)
    show printJson (encodeInventory st.inventory) ≠ []
    rw [heq]
    simp
  show loadInventory (some (stringifyJson (encodeInventory st.inventory))) = _
  rw [loadInventory, if_neg hne, parseJson_stringify]

/-- C10. `loadInventory` passes every blob that parses as JSON through
unvalidated: whatever value `JSON.parse` produced becomes the in-memory
inventory, whether or not it is an array of records. -/
theorem load_returns_parsed (stored : String) (j : Json)
    (hp : parseJson stored = some j) :
    loadInventory (some stored) = j := by
  have hne : stored.data ≠ [] := by
    intro h
    unfold parseJson at hp
    rw [h] at hp
    simp [parseVal] at hp
  rw [loadInventory, if_neg hne, hp]

/-- C10 witness: the blob `"5"` parses to the JSON number 5, which becomes
the inventory as is instead of being degraded to the empty array. -/
theorem load_returns_parsed_witness :
    loadInventory (some "5") = Json.num 5 ∧ Json.num 5 ≠ encodeInventory [] :=
  ⟨load_returns_parsed "5" (Json.num 5) rfl, fun h => Json.noConfusion h⟩

/-- C6. Activation keeps a previously existing cache generation exactly
when its name is the current `CACHE_NAME`, so afterwards only the current
generation is live. -/
theorem activate_single_generation (cacheNames : List String) (name : String) :
    name ∈ activateCaches cacheNames ↔ name ∈ cacheNames ∧ name = CACHE_NAME := by
  simp [activateCaches, List.mem_filter]

/-- C5 (amended). On a cache miss: a rejected network fetch falls back to
the cached shell for document requests and yields no response otherwise;
but an invalid response that was delivered (non-200 or non-basic) is
returned to the caller unchanged — it does not trigger the shell
fallback, whatever the destination. -/
theorem fetch_fallback_cases (cache : CacheStore) (net : String → Option SWResponse)
    (req : SWRequest) (hmiss : cacheMatch cache req.url = none) :
    (net req.url = none → req.destination = "document" →
      (handleFetch cache net req).1 = cacheMatch cache "/index.html") ∧
    (net req.url = none → req.destination ≠ "document" →
      (handleFetch cache net req).1 = none) ∧
    (∀ resp, net req.url = some resp →
      resp.status ≠ 200 ∨ resp.rtype ≠ "basic" →
      (handleFetch cache net req).1 = some resp) := by
  refine ⟨?_, ?_, ?_⟩
  · intro hnet hdest
    simp [handleFetch, hmiss, hnet, hdest]
  · intro hnet hdest
    simp [handleFetch, hmiss, hnet, hdest]
  · intro resp hnet hbad
    have hcond : (resp.status != 200 || resp.rtype != "basic") = true := by
      rcases hbad with h | h <;> simp [h]
    simp [handleFetch, hmiss, hnet, hcond]

/-- C5 witness: offline (`net` always rejects), the document request gets
the cached shell and a non-document request gets nothing. -/
theorem fetch_fallback_witness :
    (handleFetch shellCache (fun _ => none)
      { url := "/data.json", destination := "document" }).1 =
        cacheMatch shellCache "/index.html" ∧
    (handleFetch shellCache (fun _ => none)
      { url := "/app.css", destination := "style" }).1 = none :=
  ⟨(fetch_fallback_cases shellCache (fun _ => none) _ (by decide)).1 rfl rfl,
   (fetch_fallback_cases shellCache (fun _ => none) _ (by decide)).2.1 rfl (by decide)⟩

/-- C5 counterexample: on a cache miss, a delivered 404 response for a
full-document navigation is returned as is, not replaced by the cached
shell document as the claim states. -/
theorem fetch_no_fallback_on_invalid :
    (handleFetch shellCache (fun _ => some errorResp)
      { url := "/data.json", destination := "document" }).1 = some errorResp ∧
    some errorResp ≠ cacheMatch shellCache "/index.html" := by
  constructor
  · decide
  · decide

/-! ### Validation and search support -/

theorem validateIMEI_iff (s : String) :
    validateIMEI s = true ↔ (s.length = 15 ∧ ∀ c ∈ s.data, c.isDigit = true) := by
  simp [validateIMEI, List.all_eq_true]

theorem startsWithChars_self : ∀ l : List Char, startsWithChars l l = true := by
  intro l
  induction l with
  | nil => rfl
  | cons c t ih => simp [startsWithChars, ih]

theorem strIncludes_self (s : String) : strIncludes s s = true := by
  unfold strIncludes
  generalize s.data = l
  cases l with
  | nil => rfl
  | cons c t => simp [hasSubChars, startsWithChars_self]

theorem toLower_digit {c : Char} (h : c.isDigit = true) : c.toLower = c := by
  rw [isDigit_iff] at h
  have hno : ¬(c.toNat ≥ 65 ∧ c.toNat ≤ 90) := by omega
  simp [Char.toLower, hno]

theorem lowerStr_digits {s : String} (h : ∀ c ∈ s.data, c.isDigit = true) :
    lowerStr s = s := by
  have hmap : ∀ l : List Char, (∀ c ∈ l, c.isDigit = true) →
      l.map Char.toLower = l := by
    intro l
    induction l with
    | nil => intro _; rfl
    | cons c t ih =>
      intro hl
      simp only [List.map_cons]
      rw [toLower_digit (hl c (by simp)), ih (fun x hx => hl x (by simp [hx]))]
  show (⟨s.data.map Char.toLower⟩ : String) = s
  rw [hmap s.data h]

/-- C1. Submitting an add (not in edit mode): when the IMEI is exactly 15
digits and not already present, the submission is accepted and a record
with that IMEI is afterwards found by searching the inventory for it; for
any other string the submission is rejected as a validation failure and
the whole store is unchanged. -/
theorem imei_validation_gate (st : Store) (now : Nat) (d : MobileData)
    (hedit : st.isEditing = false) :
    ((d.imei.length = 15 ∧ ∀ c ∈ d.imei.data, c.isDigit = true) →
      isDuplicateIMEI st.inventory d.imei = false →
      (handleFormSubmit st now d).2 = SubmitResult.added ∧
        ((displayFilter ((handleFormSubmit st now d).1.inventory) d.imei).any
          (fun m => m.imei == d.imei)) = true) ∧
    (¬ (d.imei.length = 15 ∧ ∀ c ∈ d.imei.data, c.isDigit = true) →
      handleFormSubmit st now d = (st, SubmitResult.validationFailure)) := by
  constructor
  · rintro ⟨h15, hdig⟩ hdup
    have hval : validateIMEI d.imei = true := (validateIMEI_iff d.imei).mpr ⟨h15, hdig⟩
    have hres : handleFormSubmit st now d =
        (resetEditMode (addMobile st now d), SubmitResult.added) := by
      simp [handleFormSubmit, hval, hedit, hdup]
    rw [hres]
    refine ⟨rfl, ?_⟩
    change ((displayFilter ((resetEditMode (addMobile st now d)).inventory)
      d.imei).any (fun m => m.imei == d.imei)) = true
    have hinv : (resetEditMode (addMobile st now d)).inventory =
        st.inventory ++ [newMobile now d] := rfl
    rw [hinv]
    unfold displayFilter
    rw [lowerStr_digits hdig]
    have hne : ¬ d.imei.data = [] := by
      intro hempty
      have hz : d.imei.length = 0 := by
        show d.imei.data.length = 0
        rw [hempty]
        rfl
      omega
    rw [if_neg hne]
    rw [List.filter_append, List.any_append]
    simp [strIncludes_self d.imei, newMobile]
  · intro hbad
    have hval : validateIMEI d.imei = false := by
      cases hv : validateIMEI d.imei
      · rfl
      · exact absurd ((validateIMEI_iff d.imei).mp hv) hbad
    simp [handleFormSubmit, hval]

/-- C1 witness: the sample 15-digit IMEI is accepted into the empty store
and found again by searching for it; the malformed IMEI `"12AB"` is
rejected with the store unchanged. -/
theorem imei_validation_gate_witness :
    ((handleFormSubmit emptyStore 1 demoData).2 = SubmitResult.added ∧
      ((displayFilter ((handleFormSubmit emptyStore 1 demoData).1.inventory)
        demoData.imei).any (fun m => m.imei == demoData.imei)) = true) ∧
    handleFormSubmit emptyStore 1 badData = (emptyStore, SubmitResult.validationFailure) :=
  ⟨(imei_validation_gate emptyStore 1 demoData rfl).1 (by decide) rfl,
   (imei_validation_gate emptyStore 1 badData rfl).2 (by decide)⟩

/-- C2. After a successful add, submitting a second add with the same
IMEI is rejected as a duplicate-key failure and leaves the store — in
particular the inventory length — unchanged. -/
theorem duplicate_add_rejected (st : Store) (now1 now2 : Nat) (d1 d2 : MobileData)
    (hedit : st.isEditing = false) (him : d2.imei = d1.imei)
    (h1 : (handleFormSubmit st now1 d1).2 = SubmitResult.added) :
    handleFormSubmit ((handleFormSubmit st now1 d1).1) now2 d2 =
      ((handleFormSubmit st now1 d1).1, SubmitResult.duplicateKeyFailure) ∧
    ((handleFormSubmit ((handleFormSubmit st now1 d1).1) now2 d2).1.inventory.length =
      ((handleFormSubmit st now1 d1).1).inventory.length) := by
  by_cases hval : validateIMEI d1.imei
  · by_cases hdup : isDuplicateIMEI st.inventory d1.imei
    · exfalso
      simp [handleFormSubmit, hval, hedit, hdup] at h1
    · have hres : handleFormSubmit st now1 d1 =
          (resetEditMode (addMobile st now1 d1), SubmitResult.added) := by
        simp [handleFormSubmit, hval, hedit, hdup]
      have hdup2 : isDuplicateIMEI (addMobile st now1 d1).inventory
          d2.imei = true := by
        have hinv1 : (addMobile st now1 d1).inventory =
            st.inventory ++ [newMobile now1 d1] := rfl
        rw [hinv1]
        simp [isDuplicateIMEI, List.any_append, him, newMobile]
      have hval2 : validateIMEI d2.imei = true := by rw [him]; exact hval
      have hmain : handleFormSubmit ((handleFormSubmit st now1 d1).1) now2 d2 =
          ((handleFormSubmit st now1 d1).1, SubmitResult.duplicateKeyFailure) := by
        rw [hres]
        simp [handleFormSubmit, hval2, hdup2, resetEditMode]
      exact ⟨hmain, by rw [hmain]⟩
  · exfalso
    simp [handleFormSubmit, hval] at h1

/-- C2 witness: adding the sample record to the empty store and then
submitting it again hits the duplicate-key rejection with the length
unchanged. -/
theorem duplicate_add_rejected_witness :
    handleFormSubmit ((handleFormSubmit emptyStore 1 demoData).1) 2 demoData =
      ((handleFormSubmit emptyStore 1 demoData).1, SubmitResult.duplicateKeyFailure) ∧
    ((handleFormSubmit ((handleFormSubmit emptyStore 1 demoData).1) 2 demoData).1.inventory.length =
      ((handleFormSubmit emptyStore 1 demoData).1).inventory.length) :=
  duplicate_add_rejected emptyStore 1 2 demoData demoData rfl rfl (by decide)

/-! ### Deletion and update -/

theorem filter_ne_length_of_nodup (id : Nat) :
    ∀ l : List Mobile, (l.map (fun m => m.id)).Nodup →
      l.any (fun m => m.id == id) = true →
      (l.filter (fun m => m.id != id)).length + 1 = l.length := by
  intro l
  induction l with
  | nil => intro _ h; simp at h
  | cons m rest ih =>
    intro hnd hany
    simp only [List.map_cons, List.nodup_cons] at hnd
    obtain ⟨hm, hnd2⟩ := hnd
    by_cases hid : m.id = id
    · have hrest : rest.filter (fun m2 => m2.id != id) = rest := by
        apply List.filter_eq_self.mpr
        intro a ha
        have hne : a.id ≠ id := by
          intro he
          exact hm (List.mem_map.mpr ⟨a, ha, by rw [he, hid]⟩)
        simp [hne]
      simp [List.filter_cons, hid, hrest]
    · have hany2 : rest.any (fun m2 => m2.id == id) = true := by
        have hf : (m.id == id) = false := by simp [hid]
        simp only [List.any_cons, hf, Bool.false_or] at hany
        exact hany
      have hrec := ih hnd2 hany2
      simp [List.filter_cons, hid]
      omega

/-- C7. In an inventory with distinct record ids (the documented id
invariant) containing a record with the given id, a confirmed delete
leaves no record findable under that id and shrinks the inventory by
exactly one. -/
theorem delete_removes_record (st : Store) (id : Nat)
    (hids : (st.inventory.map (fun m => m.id)).Nodup)
    (hmem : st.inventory.any (fun m => m.id == id) = true) :
    ((deleteMobile st true id).inventory.find? (fun m => m.id == id) = none) ∧
    (deleteMobile st true id).inventory.length + 1 = st.inventory.length := by
  have hinv : (deleteMobile st true id).inventory =
      st.inventory.filter (fun m => m.id != id) := rfl
  constructor
  · rw [hinv]
    apply List.find?_eq_none.mpr
    intro x hx
    have hxne := (List.mem_filter.mp hx).2
    simp only [bne_iff_ne, ne_eq] at hxne
    simp [hxne]
  · rw [hinv]
    exact filter_ne_length_of_nodup id st.inventory hids hmem

/-- C7 witness: deleting record 1 from the two-record store removes it
and drops the length from two to one. -/
theorem delete_removes_record_witness :
    ((deleteMobile plainStore true 1).inventory.find? (fun m => m.id == 1) = none) ∧
    (deleteMobile plainStore true 1).inventory.length + 1 = plainStore.inventory.length :=
  delete_removes_record plainStore 1 (by decide) (by decide)

theorem updateFirst_map_id (id : Nat) (f : UpdateFields) :
    ∀ l : List Mobile,
      (updateFirst id f l).map (fun m => m.id) = l.map (fun m => m.id) := by
  intro l
  induction l with
  | nil => rfl
  | cons m rest ih =>
    by_cases h : (m.id == id) = true
    · simp [updateFirst, h, mergeMobile]
    · simp [updateFirst, h, ih]

/-- C8. `updateMobile` never changes any record id — even when the field
set carries an `id` key, the merge writes the original id back — and an
update at an id that is not present leaves the entire store unchanged
(nothing is modified or persisted). -/
theorem update_preserves_ids (st : Store) (id : Nat) (f : UpdateFields) :
    ((updateMobile st id f).inventory.map (fun m => m.id) =
      st.inventory.map (fun m => m.id)) ∧
    (st.inventory.any (fun m => m.id == id) = false → updateMobile st id f = st) := by
  constructor
  · unfold updateMobile
    by_cases h : st.inventory.any (fun m => m.id == id) = true
    · rw [if_pos h]
      show (updateFirst id f st.inventory).map (fun m => m.id) = _
      exact updateFirst_map_id id f st.inventory
    · rw [if_neg h]
  · intro h
    unfold updateMobile
    rw [if_neg (by simp [h])]

/-- C8 witness: a field set that tries to overwrite `id` leaves the ids
of the two-record store intact, and updating a missing id is a no-op on
the whole store. -/
theorem update_preserves_ids_witness :
    ((updateMobile plainStore 1 fieldsWithId).inventory.map (fun m => m.id) =
      plainStore.inventory.map (fun m => m.id)) ∧
    updateMobile plainStore 99 fieldsWithId = plainStore :=
  ⟨(update_preserves_ids plainStore 1 fieldsWithId).1,
   (update_preserves_ids plainStore 99 fieldsWithId).2 (by decide)⟩

/-! ### IMEI uniqueness -/

theorem updateFirst_map_imei (id : Nat) (f : UpdateFields) (hf : f.imei = none) :
    ∀ l : List Mobile,
      (updateFirst id f l).map (fun m => m.imei) = l.map (fun m => m.imei) := by
  intro l
  induction l with
  | nil => rfl
  | cons m rest ih =>
    by_cases h : (m.id == id) = true
    · simp [updateFirst, h, mergeMobile, hf]
    · simp [updateFirst, h, ih]

theorem setSoldFirst_map_imei (id : Nat) :
    ∀ l : List Mobile,
      (setSoldFirst id l).map (fun m => m.imei) = l.map (fun m => m.imei) := by
  intro l
  induction l with
  | nil => rfl
  | cons m rest ih =>
    by_cases h : (m.id == id) = true
    · simp [setSoldFirst, h]
    · simp [setSoldFirst, h, ih]

/-- C3 counterexample: in the two-record store, editing record 1 and
submitting record 2's IMEI passes validation, skips the duplicate check
(edit mode), and merges the foreign IMEI — after which two records share
an IMEI, so the invariant is not preserved by update field sets that
contain an `imei` key. -/
theorem edit_breaks_imei_uniqueness :
    imeiUnique editStore.inventory ∧
    ¬ imeiUnique ((handleFormSubmit editStore 99 collideData).1.inventory) := by
  constructor
  · decide
  · decide

/-- C3 (amended). The no-two-records-share-an-IMEI invariant is preserved
by a form-submission add (not in edit mode) for all inputs, by delete and
by markSold for all arguments, and by update whenever the field set
carries no `imei` key; the exception forced by the counterexample is an
update whose field set rewrites `imei`. -/
theorem imeiUnique_preserved (st : Store) (now : Nat) (d : MobileData)
    (id : Nat) (conf : Bool) (f : UpdateFields) (hu : imeiUnique st.inventory) :
    (st.isEditing = false → imeiUnique ((handleFormSubmit st now d).1.inventory)) ∧
    imeiUnique ((deleteMobile st conf id).inventory) ∧
    imeiUnique ((markAsSold st conf id).inventory) ∧
    (f.imei = none → imeiUnique ((updateMobile st id f).inventory)) := by
  refine ⟨?_, ?_, ?_, ?_⟩
  · intro hedit
    by_cases hval : validateIMEI d.imei = true
    · by_cases hdup : isDuplicateIMEI st.inventory d.imei = true
      · have hres : (handleFormSubmit st now d).1 = st := by
          simp [handleFormSubmit, hval, hedit, hdup]
        rw [hres]
        exact hu
      · have hres : (handleFormSubmit st now d).1 = resetEditMode (addMobile st now d) := by
          simp [handleFormSubmit, hval, hedit, hdup]
        rw [hres]
        show imeiUnique (st.inventory ++ [newMobile now d])
        have hnotmem : d.imei ∉ st.inventory.map (fun m => m.imei) := by
          intro hmem
          obtain ⟨m, hm, he⟩ := List.mem_map.mp hmem
          exact hdup (List.any_eq_true.mpr ⟨m, hm, by simp [he]⟩)
        unfold imeiUnique
        rw [List.map_append]
        rw [List.nodup_append]
        refine ⟨hu, by simp [newMobile], ?_⟩
        intro a ha hb
        simp only [List.map_cons, List.map_nil, List.mem_singleton, newMobile] at hb
        rw [hb] at ha
        exact hnotmem ha
    · have hvf : validateIMEI d.imei = false := by
        revert hval
        cases validateIMEI d.imei <;> simp
      have hres : (handleFormSubmit st now d).1 = st := by
        simp [handleFormSubmit, hvf]
      rw [hres]
      exact hu
  · cases conf with
    | false => exact hu
    | true =>
      show imeiUnique (st.inventory.filter (fun m => m.id != id))
      unfold imeiUnique
      have hsub : List.Sublist
          ((st.inventory.filter (fun m => m.id != id)).map (fun m => m.imei))
          (st.inventory.map (fun m => m.imei)) :=
        (List.filter_sublist st.inventory).map _
      exact List.Nodup.sublist hsub hu
  · cases conf with
    | false => exact hu
    | true =>
      by_cases hany : st.inventory.any (fun m => m.id == id) = true
      · have hres : (markAsSold st true id).inventory = setSoldFirst id st.inventory := by
          simp [markAsSold, hany, saveInventory]
        rw [hres]
        unfold imeiUnique
        rw [setSoldFirst_map_imei]
        exact hu
      · have hres : markAsSold st true id = st := by
          simp [markAsSold, hany]
        rw [hres]
        exact hu
  · intro hf
    by_cases hany : st.inventory.any (fun m => m.id == id) = true
    · have hres : (updateMobile st id f).inventory = updateFirst id f st.inventory := by
        simp [updateMobile, hany, saveInventory]
      rw [hres]
      unfold imeiUnique
      rw [updateFirst_map_imei id f hf]
      exact hu
    · have hres : updateMobile st id f = st := by
        simp [updateMobile, hany]
      rw [hres]
      exact hu

/-- C3 witness for the amended statement, at the two-record store. -/
theorem imeiUnique_preserved_witness :
    imeiUnique ((handleFormSubmit plainStore 42 demoData).1.inventory) ∧
    imeiUnique ((deleteMobile plainStore true 1).inventory) ∧
    imeiUnique ((markAsSold plainStore true 1).inventory) ∧
    imeiUnique ((updateMobile plainStore 1 fieldsWithId).inventory) :=
  have h := imeiUnique_preserved plainStore 42 demoData 1 true fieldsWithId (by decide)
  ⟨h.1 rfl, h.2.1, h.2.2.1, h.2.2.2 rfl⟩

/-! ### Sold flag -/

theorem setSoldFirst_map_id (id : Nat) :
    ∀ l : List Mobile,
      (setSoldFirst id l).map (fun m => m.id) = l.map (fun m => m.id) := by
  intro l
  induction l with
  | nil => rfl
  | cons m rest ih =>
    by_cases h : (m.id == id) = true
    · simp [setSoldFirst, h]
    · simp [setSoldFirst, h, ih]

theorem any_id_eq_any_map :
    ∀ (l : List Mobile) (i : Nat),
      l.any (fun m => m.id == i) = (l.map (fun m => m.id)).any (fun x => x == i) := by
  intro l i
  induction l with
  | nil => rfl
  | cons m rest ih => simp [List.any_cons, ih]

theorem any_id_congr (l1 l2 : List Mobile)
    (h : l1.map (fun m => m.id) = l2.map (fun m => m.id)) (i : Nat) :
    l1.any (fun m => m.id == i) = l2.any (fun m => m.id == i) := by
  rw [any_id_eq_any_map, h, ← any_id_eq_any_map]

theorem setSoldFirst_idem (id : Nat) :
    ∀ l : List Mobile, setSoldFirst id (setSoldFirst id l) = setSoldFirst id l := by
  intro l
  induction l with
  | nil => rfl
  | cons m rest ih =>
    by_cases h : (m.id == id) = true
    · simp [setSoldFirst, h]
    · simp [setSoldFirst, h, ih]

theorem setSoldFirst_mem (id : Nat) :
    ∀ (l : List Mobile) (m2 : Mobile), m2 ∈ setSoldFirst id l →
      m2 ∈ l ∨ ∃ m1, m1 ∈ l ∧ m2 = { m1 with sold := some true } := by
  intro l
  induction l with
  | nil =>
    intro m2 h
    simp [setSoldFirst] at h
  | cons m rest ih =>
    intro m2 h
    by_cases hm : (m.id == id) = true
    · rw [setSoldFirst, if_pos hm] at h
      rcases List.mem_cons.mp h with he | hr
      · exact Or.inr ⟨m, List.mem_cons_self m rest, he⟩
      · exact Or.inl (List.mem_cons_of_mem m hr)
    · rw [setSoldFirst, if_neg hm] at h
      rcases List.mem_cons.mp h with he | hr
      · exact Or.inl (he ▸ List.mem_cons_self m rest)
      · rcases ih m2 hr with h1 | ⟨m1, hm1, he1⟩
        · exact Or.inl (List.mem_cons_of_mem m h1)
        · exact Or.inr ⟨m1, List.mem_cons_of_mem m hm1, he1⟩

theorem updateFirst_mem (id : Nat) (f : UpdateFields) :
    ∀ (l : List Mobile) (m2 : Mobile), m2 ∈ updateFirst id f l →
      m2 ∈ l ∨ ∃ m1, m1 ∈ l ∧ m2 = mergeMobile m1 f := by
  intro l
  induction l with
  | nil =>
    intro m2 h
    simp [updateFirst] at h
  | cons m rest ih =>
    intro m2 h
    by_cases hm : (m.id == id) = true
    · rw [updateFirst, if_pos hm] at h
      rcases List.mem_cons.mp h with he | hr
      · exact Or.inr ⟨m, List.mem_cons_self m rest, he⟩
      · exact Or.inl (List.mem_cons_of_mem m hr)
    · rw [updateFirst, if_neg hm] at h
      rcases List.mem_cons.mp h with he | hr
      · exact Or.inl (he ▸ List.mem_cons_self m rest)
      · rcases ih m2 hr with h1 | ⟨m1, hm1, he1⟩
        · exact Or.inl (List.mem_cons_of_mem m h1)
        · exact Or.inr ⟨m1, List.mem_cons_of_mem m hm1, he1⟩

theorem nodup_id_inj :
    ∀ l : List Mobile, (l.map (fun m => m.id)).Nodup →
      ∀ a, a ∈ l → ∀ b, b ∈ l → a.id = b.id → a = b := by
  intro l
  induction l with
  | nil =>
    intro _ a ha
    simp at ha
  | cons m rest ih =>
    intro hnd a ha b hb he
    simp only [List.map_cons, List.nodup_cons] at hnd
    obtain ⟨hm, hnd2⟩ := hnd
    rcases List.mem_cons.mp ha with ha1 | ha2
    · rcases List.mem_cons.mp hb with hb1 | hb2
      · rw [ha1, hb1]
      · exfalso
        apply hm
        exact List.mem_map.mpr ⟨b, hb2, by rw [← he, ha1]⟩
    · rcases List.mem_cons.mp hb with hb1 | hb2
      · exfalso
        apply hm
        exact List.mem_map.mpr ⟨a, ha2, by rw [he, hb1]⟩
      · exact ih hnd2 a ha2 b hb2 he

theorem markAsSold_def_found (st : Store) (id : Nat)
    (hany : st.inventory.any (fun m => m.id == id) = true) :
    markAsSold st true id =
      saveInventory { st with inventory := setSoldFirst id st.inventory } := by
  simp [markAsSold, hany]

/-- C9. For inventories with distinct ids (the documented id invariant):
applying a confirmed `markAsSold` twice produces exactly the same store
state as applying it once, and none of the exposed mutating operations —
markSold itself, delete, or a form submission (add or edit), the latter
with a fresh timestamp id — ever turns a record that was marked sold back
into an unsold record with the same id. -/
theorem markSold_idempotent_one_way (st : Store) (id : Nat)
    (hids : (st.inventory.map (fun m => m.id)).Nodup) :
    (markAsSold (markAsSold st true id) true id = markAsSold st true id) ∧
    (∀ conf id2, soldPreserved st.inventory ((markAsSold st conf id2).inventory)) ∧
    (∀ conf id2, soldPreserved st.inventory ((deleteMobile st conf id2).inventory)) ∧
    (∀ now d, (∀ m ∈ st.inventory, m.id ≠ now) →
      soldPreserved st.inventory ((handleFormSubmit st now d).1.inventory)) := by
  refine ⟨?_, ?_, ?_, ?_⟩
  · -- idempotence
    by_cases hany : st.inventory.any (fun m => m.id == id) = true
    · rw [markAsSold_def_found st id hany]
      have hany2 : (saveInventory
          { st with inventory := setSoldFirst id st.inventory }).inventory.any
            (fun m => m.id == id) = true := by
        show (setSoldFirst id st.inventory).any (fun m => m.id == id) = true
        rw [any_id_congr _ st.inventory (setSoldFirst_map_id id st.inventory) id]
        exact hany
      rw [markAsSold_def_found _ id hany2]
      show saveInventory
          { saveInventory { st with inventory := setSoldFirst id st.inventory } with
            inventory := setSoldFirst id (setSoldFirst id st.inventory) } = _
      rw [setSoldFirst_idem]
      rfl
    · have h0 : markAsSold st true id = st := by simp [markAsSold, hany]
      rw [h0, h0]
  · -- markAsSold never un-marks
    intro conf id2 m hm hsold m2 hm2 hid2
    cases conf with
    | false =>
      have he : m2 = m := nodup_id_inj st.inventory hids m2 hm2 m hm hid2
      rw [he]
      exact hsold
    | true =>
      by_cases hany : st.inventory.any (fun m => m.id == id2) = true
      · have hres : (markAsSold st true id2).inventory = setSoldFirst id2 st.inventory := by
          simp [markAsSold, hany, saveInventory]
        rw [hres] at hm2
        rcases setSoldFirst_mem id2 st.inventory m2 hm2 with h | ⟨m1, hm1, he⟩
        · have he : m2 = m := nodup_id_inj st.inventory hids m2 h m hm hid2
          rw [he]
          exact hsold
        · rw [he]
      · have hres : markAsSold st true id2 = st := by simp [markAsSold, hany]
        rw [hres] at hm2
        have he : m2 = m := nodup_id_inj st.inventory hids m2 hm2 m hm hid2
        rw [he]
        exact hsold
  · -- delete never un-marks
    intro conf id2 m hm hsold m2 hm2 hid2
    cases conf with
    | false =>
      have he : m2 = m := nodup_id_inj st.inventory hids m2 hm2 m hm hid2
      rw [he]
      exact hsold
    | true =>
      have hres : (deleteMobile st true id2).inventory =
          st.inventory.filter (fun m => m.id != id2) := rfl
      rw [hres] at hm2
      have hmem2 := (List.mem_filter.mp hm2).1
      have he : m2 = m := nodup_id_inj st.inventory hids m2 hmem2 m hm hid2
      rw [he]
      exact hsold
  · -- form submission never un-marks
    intro now d hfresh m hm hsold m2 hm2 hid2
    by_cases hval : validateIMEI d.imei = true
    · by_cases hedit : st.isEditing = true
      · cases heid : st.editingId with
        | none =>
          have hres : (handleFormSubmit st now d).1 = resetEditMode st := by
            simp [handleFormSubmit, hval, hedit, heid]
          rw [hres] at hm2
          have hm2b : m2 ∈ st.inventory := hm2
          have he : m2 = m := nodup_id_inj st.inventory hids m2 hm2b m hm hid2
          rw [he]
          exact hsold
        | some eid =>
          have hres : (handleFormSubmit st now d).1 =
              resetEditMode (updateMobile st eid (fieldsOfData d)) := by
            simp [handleFormSubmit, hval, hedit, heid]
          rw [hres] at hm2
          by_cases hany : st.inventory.any (fun m => m.id == eid) = true
          · have hres2 : (updateMobile st eid (fieldsOfData d)).inventory =
                updateFirst eid (fieldsOfData d) st.inventory := by
              simp [updateMobile, hany, saveInventory]
            have hm2b : m2 ∈ updateFirst eid (fieldsOfData d) st.inventory := by
              rw [← hres2]
              exact hm2
            rcases updateFirst_mem eid (fieldsOfData d) st.inventory m2 hm2b with
              h | ⟨m1, hm1, he⟩
            · have heq : m2 = m := nodup_id_inj st.inventory hids m2 h m hm hid2
              rw [heq]
              exact hsold
            · rw [he] at hid2
              have hid1 : m1.id = m.id := hid2
              have heq1 : m1 = m := nodup_id_inj st.inventory hids m1 hm1 m hm hid1
              rw [he]
              show (mergeMobile m1 (fieldsOfData d)).sold = some true
              have hs : (mergeMobile m1 (fieldsOfData d)).sold = m1.sold := rfl
              rw [hs, heq1]
              exact hsold
          · have hres2 : updateMobile st eid (fieldsOfData d) = st := by
              simp [updateMobile, hany]
            rw [hres2] at hm2
            have hm2b : m2 ∈ st.inventory := hm2
            have he : m2 = m := nodup_id_inj st.inventory hids m2 hm2b m hm hid2
            rw [he]
            exact hsold
      · have hedit2 : st.isEditing = false := by
          revert hedit
          cases st.isEditing <;> simp
        by_cases hdup : isDuplicateIMEI st.inventory d.imei = true
        · have hres : (handleFormSubmit st now d).1 = st := by
            simp [handleFormSubmit, hval, hedit2, hdup]
          rw [hres] at hm2
          have he : m2 = m := nodup_id_inj st.inventory hids m2 hm2 m hm hid2
          rw [he]
          exact hsold
        · have hres : (handleFormSubmit st now d).1 =
              resetEditMode (addMobile st now d) := by
            simp [handleFormSubmit, hval, hedit2, hdup]
          rw [hres] at hm2
          have hm2b : m2 ∈ st.inventory ++ [newMobile now d] := hm2
          rcases List.mem_append.mp hm2b with h | h
          · have he : m2 = m := nodup_id_inj st.inventory hids m2 h m hm hid2
            rw [he]
            exact hsold
          · exfalso
            have he : m2 = newMobile now d := List.mem_singleton.mp h
            rw [he] at hid2
            exact hfresh m hm hid2.symm
    · have hvf : validateIMEI d.imei = false := by
        revert hval
        cases validateIMEI d.imei <;> simp
      have hres : (handleFormSubmit st now d).1 = st := by
        simp [handleFormSubmit, hvf]
      rw [hres] at hm2
      have he : m2 = m := nodup_id_inj st.inventory hids m2 hm2 m hm hid2
      rw [he]
      exact hsold

/-- C9 witness at the two-record store (record 2 is sold): marking record
2 sold twice equals marking it once, and markSold, delete and a fresh add
all leave record 2 marked sold. -/
theorem markSold_idempotent_one_way_witness :
    (markAsSold (markAsSold plainStore true 2) true 2 = markAsSold plainStore true 2) ∧
    soldPreserved plainStore.inventory ((markAsSold plainStore true 1).inventory) ∧
    soldPreserved plainStore.inventory ((deleteMobile plainStore true 1).inventory) ∧
    soldPreserved plainStore.inventory ((handleFormSubmit plainStore 42 demoData).1.inventory) :=
  ⟨(markSold_idempotent_one_way plainStore 2 (by decide)).1,
   (markSold_idempotent_one_way plainStore 2 (by decide)).2.1 true 1,
   (markSold_idempotent_one_way plainStore 2 (by decide)).2.2.1 true 1,
   (markSold_idempotent_one_way plainStore 2 (by decide)).2.2.2 42 demoData (by decide)⟩
